import Mathlib

/-!
Verification of the go-bindings key layer of the bls-signatures repository.

The Go files under go-bindings (publickey.go, extendedpublickey.go,
extendedprivatekey.go) are a thin binding over a native BLS library.  The
binding-level control flow (panics, error returns, check ordering) is embedded
directly from the Go source.  The native layer (curve group, serialization
format, child-key math, aggregation, equality) is not part of the Go sources;
those parts are modelled from the specification, each such definition carries a
doc comment starting with "Modelled from the spec:".

Machine integers are modelled as Nat with explicit reduction where overflow or
field width matters.  A Go function that can panic is embedded with an explicit
outcome type distinguishing a panic (fatal abort reaching the caller only as a
crash) from an ordinary return; a Go function returning (value, error) is
embedded as Except.
-/

namespace BLSChia

/-- Modelled from the spec: the order of the BLS public-key group / private
scalar field (an external primitive, §6).  The group is a cyclic group of
prime order; we model it additively as the integers modulo its order, which
captures all the group-theoretic structure the derivation and aggregation
layers use.  The constant is the BLS12-381 subgroup order. -/
def groupOrder : Nat :=
  52435875175126190479447740508185965837690552500527637822603658699938581184513

/-- Modelled from the spec: a fixed generator of the public-key group.  Any
non-zero residue generates the prime-order group. -/
def genPoint : Nat := 7

/-- Big-endian fixed-width byte encoding of a natural number: `beBytes n v`
is the `n`-byte big-endian encoding of `v` (each entry < 256). -/
def beBytes : Nat → Nat → List Nat
  | 0, _ => []
  | n + 1, v => beBytes n (v / 256) ++ [v % 256]

/-- Big-endian decoding of a byte list. -/
def fromBE (l : List Nat) : Nat := l.foldl (fun acc b => acc * 256 + b) 0

/-- A BLS public key: a point of the public-key group.  Modelled from the
spec: the group element is abstract in the source (an opaque native handle);
we represent it by its index in the cyclic group, always reduced modulo
`groupOrder` by every constructor. -/
structure PublicKey where
  point : Nat
deriving DecidableEq, Repr

/-- A BLS private key: a scalar of the private scalar field. -/
structure PrivateKey where
  scalar : Nat
deriving DecidableEq, Repr

/-- Byte length of a serialized public key (group element encoding). -/
def pkLen : Nat := 48

/-- Byte length of a serialized private key (scalar encoding). -/
def skLen : Nat := 32

/-- Modelled from the spec: canonical fixed-length serialization of a group
element (§4.1, §6) — deterministic, fixed 48-byte big-endian encoding. -/
def PublicKey.Serialize (pk : PublicKey) : List Nat := beBytes pkLen pk.point

/-- Validity of a public key: the encoded point denotes an element of the
group (spec §3: valid group element). -/
def PublicKey.Valid (pk : PublicKey) : Prop := pk.point < groupOrder

instance (pk : PublicKey) : Decidable pk.Valid := by
  unfold PublicKey.Valid; infer_instance

/-- Error kinds of the spec's error model (§7).  The Go binding surfaces the
native error as an error value; the kinds are modelled from the spec. -/
inductive BLSError where
  | InvalidEncoding
  | EmptyInput
deriving DecidableEq, Repr

/-- PublicKeyFromBytes, from publickey.go: constructs a public key from
bytes, returning (key, error); the decode itself is modelled from the spec
(§4.1): fails with InvalidEncoding unless the bytes are a fixed-length
encoding of a valid group element. -/
def PublicKeyFromBytes (data : List Nat) : Except BLSError PublicKey :=
  if data.length = pkLen ∧ fromBE data < groupOrder then
    .ok ⟨fromBE data⟩
  else
    .error .InvalidEncoding

/-- Modelled from the spec: PrivateKeyFromBytes (§4.1, "analogous
PrivateKeyFromBytes/Serialize for PrivateKey"); the privatekey binding file
is not among the sources.  The scalar must be non-zero (§3). -/
def PrivateKeyFromBytes (data : List Nat) : Except BLSError PrivateKey :=
  if data.length = skLen ∧ 0 < fromBE data ∧ fromBE data < groupOrder then
    .ok ⟨fromBE data⟩
  else
    .error .InvalidEncoding

/-- Modelled from the spec: canonical fixed-length scalar serialization. -/
def PrivateKey.Serialize (sk : PrivateKey) : List Nat := beBytes skLen sk.scalar

/-- Validity of a private key: non-zero scalar of the field (§3). -/
def PrivateKey.Valid (sk : PrivateKey) : Prop :=
  0 < sk.scalar ∧ sk.scalar < groupOrder

instance (sk : PrivateKey) : Decidable sk.Valid := by
  unfold PrivateKey.Valid; infer_instance

/-- Modelled from the spec: equality of private keys (§4.1, the analogous
PrivateKey operations): true iff the two scalars coincide. -/
def PrivateKey.Equal (sk other : PrivateKey) : Bool := sk.scalar == other.scalar

/-- Equal, from publickey.go: equality of two public keys; the native
comparison is modelled from the spec (§4.1): true iff the two keys are the
same group element. -/
def PublicKey.Equal (pk other : PublicKey) : Bool := pk.point == other.point

/-- Fingerprint, from publickey.go: the native accessor is modelled from the
spec (§3, §4.1): the first 4 bytes of the serialized key as a big-endian u32,
i.e. the high 4 bytes of the 48-byte encoding. -/
def PublicKey.Fingerprint (pk : PublicKey) : Nat := pk.point / 256 ^ (pkLen - 4)

/-- Modelled from the spec: the domain-separated hash of the BLS primitive
library (§6), "parameterized distinctly per use".  The spec leaves the
concrete construction open (§9, open question); the model uses a
deterministic fold of the domain tag and the data.  The claims depend only
on determinism and on the domain/data arguments, never on the mixing. -/
def hashFold (domain : Nat) (data : List Nat) : Nat :=
  (domain :: data).foldl (fun acc b => acc * 1099511628211 + b + 1) 0

/-- Modelled from the spec: hash-to-scalar (§6), used for derivation tweaks
and aggregation weights under distinct domain tags. -/
def hashToScalar (domain : Nat) (data : List Nat) : Nat :=
  hashFold domain data % groupOrder

/-- Modelled from the spec: hash to a 32-byte chain-code value (§3: a chain
code is an opaque 32-byte value produced only by the derivation functions). -/
def hashBytes32 (domain : Nat) (data : List Nat) : Nat :=
  hashFold domain data % 256 ^ 32

/-- Modelled from the spec: the public key corresponding to a private scalar
(scalar multiplication of the generator). -/
def pkOf (sk : Nat) : Nat := genPoint * sk % groupOrder

/-- ExtendedPublicKey, from extendedpublickey.go: a BIP-32 style extended
public key.  The native handle holds the fields of the spec's data model
(§3): version, depth, parent fingerprint, child number, chain code and the
embedded public-key point. -/
structure ExtendedPublicKey where
  version : Nat
  depth : Nat
  parentFingerprint : Nat
  childNumber : Nat
  chainCode : Nat
  pk : Nat
deriving DecidableEq, Repr

/-- ExtendedPrivateKey, from extendedprivatekey.go: a BIP-32 style extended
key composed of a private key and a chain code, with the same metadata. -/
structure ExtendedPrivateKey where
  version : Nat
  depth : Nat
  parentFingerprint : Nat
  childNumber : Nat
  chainCode : Nat
  sk : Nat
deriving DecidableEq, Repr

/-- Outcome of a Go call that can panic: the Go functions PublicChild and
PrivateChild return only a key pointer — they have no error return value, so
a failed check surfaces as a runtime panic (a fatal abort), never as an
error value handed to the caller. -/
inductive DeriveOutcome (α : Type) where
  | panicked (msg : String)
  | ok (child : α)
deriving DecidableEq, Repr

/-- The panic message of the hardened-index check in PublicChild
(extendedpublickey.go line 73). -/
def hardenedPanicMsg : String := "cannot derive hardened children from public key"

/-- The panic message of the depth check in PublicChild and PrivateChild
(extendedpublickey.go line 76, extendedprivatekey.go line 100). -/
def depthPanicMsg : String := "cannot go further than 255 levels"

/-- childComparator, from extendedpublickey.go line 67: hardened children
have index `i >= 2^31`. -/
def childComparator : Nat := 2 ^ 31

/-- Domain tag of the normal-derivation tweak (distinct per use, §6). -/
def derivNormalDomain : Nat := 1

/-- Domain tag of the hardened-derivation tweak. -/
def derivHardenedDomain : Nat := 2

/-- Domain tag of the normal chain-code derivation. -/
def ccNormalDomain : Nat := 3

/-- Domain tag of the hardened chain-code derivation. -/
def ccHardenedDomain : Nat := 4

/-- Domain tag of the secure-aggregation weight hash. -/
def aggWeightDomain : Nat := 5

/-- Modelled from the spec: fingerprint of a raw point, matching
PublicKey.Fingerprint (first 4 bytes of the serialized key). -/
def fingerprintOf (point : Nat) : Nat := point / 256 ^ (pkLen - 4)

/-- Modelled from the spec: the scalar tweak of normal derivation — a
domain-separated hash of the parent public key, chain code and index
(§2, §4.3: derived from (parent.PublicKey, parent.ChainCode, i) without
touching a private scalar). -/
def normalTweak (pk cc i : Nat) : Nat :=
  hashToScalar derivNormalDomain [pk, cc, i]

/-- Modelled from the spec: the chain code of a normal child, derived
deterministically from (parent.PublicKey, parent.ChainCode, i). -/
def normalChildCC (pk cc i : Nat) : Nat :=
  hashBytes32 ccNormalDomain [pk, cc, i]

/-- Modelled from the spec: the native child derivation of
CExtendedPublicKeyPublicChild (§4.3): new node with depth = parent.depth+1,
parentFingerprint = Fingerprint(parent key), childNumber = i; key and chain
code derived from (parent.PublicKey, parent.ChainCode, i). -/
def cPublicChild (key : ExtendedPublicKey) (i : Nat) : ExtendedPublicKey :=
  { version := key.version
    depth := key.depth + 1
    parentFingerprint := fingerprintOf key.pk
    childNumber := i
    chainCode := normalChildCC key.pk key.chainCode i
    pk := (key.pk + genPoint * normalTweak key.pk key.chainCode i) % groupOrder }

/-- Modelled from the spec: the native child derivation of
CExtendedPrivateKeyPrivateChild (§4.3): normal indices use the tweak of
(parent public key, chain code, i); hardened indices (i >= 2^31)
additionally mix in the parent's private scalar. -/
def cPrivateChild (key : ExtendedPrivateKey) (i : Nat) : ExtendedPrivateKey :=
  if i < childComparator then
    { version := key.version
      depth := key.depth + 1
      parentFingerprint := fingerprintOf (pkOf key.sk)
      childNumber := i
      chainCode := normalChildCC (pkOf key.sk) key.chainCode i
      sk := (key.sk + normalTweak (pkOf key.sk) key.chainCode i) % groupOrder }
  else
    { version := key.version
      depth := key.depth + 1
      parentFingerprint := fingerprintOf (pkOf key.sk)
      childNumber := i
      chainCode := hashBytes32 ccHardenedDomain [key.sk, key.chainCode, i]
      sk := (key.sk + hashToScalar derivHardenedDomain [key.sk, key.chainCode, i]) % groupOrder }

/-- PublicChild, from extendedpublickey.go lines 70-86: first the hardened
check (panic), then the depth check (panic), then the native derivation. -/
def ExtendedPublicKey.PublicChild (key : ExtendedPublicKey) (i : Nat) :
    DeriveOutcome ExtendedPublicKey :=
  if i ≥ childComparator then .panicked hardenedPanicMsg
  else if key.depth ≥ 255 then .panicked depthPanicMsg
  else .ok (cPublicChild key i)

/-- PrivateChild, from extendedprivatekey.go lines 98-109: the depth check
(panic), then the native derivation (no hardened restriction). -/
def ExtendedPrivateKey.PrivateChild (key : ExtendedPrivateKey) (i : Nat) :
    DeriveOutcome ExtendedPrivateKey :=
  if key.depth ≥ 255 then .panicked depthPanicMsg
  else .ok (cPrivateChild key i)

/-- GetExtendedPublicKey, from extendedprivatekey.go lines 113-121: the
native projection is modelled from the spec (§4.3): derives the public key
and copies depth/version/parentFingerprint/childNumber/chainCode unchanged. -/
def ExtendedPrivateKey.GetExtendedPublicKey (key : ExtendedPrivateKey) :
    ExtendedPublicKey :=
  { version := key.version
    depth := key.depth
    parentFingerprint := key.parentFingerprint
    childNumber := key.childNumber
    chainCode := key.chainCode
    pk := pkOf key.sk }

/-- GetDepth, from extendedpublickey.go lines 96-100. -/
def ExtendedPublicKey.GetDepth (key : ExtendedPublicKey) : Nat := key.depth

/-- GetDepth, from extendedprivatekey.go lines 131-135. -/
def ExtendedPrivateKey.GetDepth (key : ExtendedPrivateKey) : Nat := key.depth

/-- Equal, from extendedpublickey.go lines 128-133: the native comparison is
modelled from the spec (§4.3): only the embedded key and chain-code material
is compared. -/
def ExtendedPublicKey.Equal (key other : ExtendedPublicKey) : Bool :=
  key.pk == other.pk && key.chainCode == other.chainCode

/-- Equal, from extendedprivatekey.go lines 165-170 ("Only the privatekey
and chaincode material is tested"). -/
def ExtendedPrivateKey.Equal (key other : ExtendedPrivateKey) : Bool :=
  key.sk == other.sk && key.chainCode == other.chainCode

/-- Addition in the public-key group. -/
def addG (a b : Nat) : Nat := (a + b) % groupOrder

/-- Sum of a list of group elements. -/
def sumG (l : List Nat) : Nat := l.foldr addG 0

/-- Modelled from the spec: the canonical representation of the aggregation
set used by the secure-aggregation weight hash (§4.2: "implementers must
hash over a canonical representation of the set (e.g., sorted serialized
bytes)") — the sorted list of the keys' points (each point standing for its
canonical serialization). -/
def sortedPoints (keys : List PublicKey) : List Nat :=
  List.insertionSort (· ≤ ·) (keys.map PublicKey.point)

/-- Modelled from the spec: the per-key secure-aggregation exponent
`e_i = Hash(pk_i, {serialized bytes of all keys in the set})` (§4.2),
domain-separated from derivation hashing. -/
def secureWeight (keys : List PublicKey) (pk : PublicKey) : Nat :=
  hashToScalar aggWeightDomain (pk.point :: sortedPoints keys)

/-- Modelled from the spec: the native secure aggregation
`Σ e_i · pk_i` (§4.2). -/
def cAggregateSecure (keys : List PublicKey) : PublicKey :=
  ⟨sumG (keys.map (fun k => secureWeight keys k * k.point % groupOrder))⟩

/-- Modelled from the spec: the native insecure aggregation, the plain sum
`Σ pk_i` (§4.2). -/
def cAggregateInsecure (keys : List PublicKey) : PublicKey :=
  ⟨sumG (keys.map PublicKey.point)⟩

/-- PublicKeyAggregate, from publickey.go lines 73-96 (secure aggregation):
returns (key, error); the native empty-input rejection is modelled from the
spec (§4.2, §7: fail with EmptyInput on zero keys, total otherwise). -/
def PublicKeyAggregate (keys : List PublicKey) : Except BLSError PublicKey :=
  if keys.isEmpty then .error .EmptyInput
  else .ok (cAggregateSecure keys)

/-- PublicKeyAggregateInsecure, from publickey.go lines 100-123. -/
def PublicKeyAggregateInsecure (keys : List PublicKey) : Except BLSError PublicKey :=
  if keys.isEmpty then .error .EmptyInput
  else .ok (cAggregateInsecure keys)

/-- Serialized size of an extended public key:
version(4) || depth(1) || parentFingerprint(4) || childNumber(4) ||
chainCode(32) || key(48) (§6). -/
def xpubLen : Nat := 4 + 1 + 4 + 4 + 32 + pkLen

/-- Serialized size of an extended private key (key part is the 32-byte
scalar encoding). -/
def xprivLen : Nat := 4 + 1 + 4 + 4 + 32 + skLen

/-- Serialize, from extendedpublickey.go lines 49-54: the native layout is
modelled from the spec (§6): the concatenation
version(4) || depth(1) || parentFingerprint(4) || childNumber(4) ||
chainCode(32) || key(serialized), big-endian fields. -/
def ExtendedPublicKey.Serialize (key : ExtendedPublicKey) : List Nat :=
  beBytes 4 key.version ++ (beBytes 1 key.depth ++ (beBytes 4 key.parentFingerprint ++
    (beBytes 4 key.childNumber ++ (beBytes 32 key.chainCode ++ beBytes pkLen key.pk))))

/-- Serialize, from extendedprivatekey.go lines 67-72, same layout with the
scalar encoding as the key part. -/
def ExtendedPrivateKey.Serialize (key : ExtendedPrivateKey) : List Nat :=
  beBytes 4 key.version ++ (beBytes 1 key.depth ++ (beBytes 4 key.parentFingerprint ++
    (beBytes 4 key.childNumber ++ (beBytes 32 key.chainCode ++ beBytes skLen key.sk))))

/-- Outcome of a Go constructor whose only failure mode is in the native
layer: ExtendedPublicKeyFromBytes and ExtendedPrivateKeyFromBytes
(extendedpublickey.go lines 20-30, extendedprivatekey.go lines 38-48)
return only a key pointer — the Go signature has no error value, so a native
parse failure cannot be returned to the caller and surfaces only as a
native-layer abort. -/
inductive ParseOutcome (α : Type) where
  | nativeAbort
  | ok (key : α)
deriving DecidableEq, Repr

/-- ExtendedPublicKeyFromBytes, from extendedpublickey.go lines 20-30: the
native parse is modelled from the spec (§6 layout); malformed input (wrong
length or an encoding that is not a valid group element) has no Go error
path and is a native abort. -/
def ExtendedPublicKeyFromBytes (data : List Nat) : ParseOutcome ExtendedPublicKey :=
  if data.length = xpubLen ∧ fromBE (data.drop 45) < groupOrder then
    .ok { version := fromBE (data.take 4)
          depth := fromBE ((data.drop 4).take 1)
          parentFingerprint := fromBE ((data.drop 5).take 4)
          childNumber := fromBE ((data.drop 9).take 4)
          chainCode := fromBE ((data.drop 13).take 32)
          pk := fromBE (data.drop 45) }
  else .nativeAbort

/-- ExtendedPrivateKeyFromBytes, from extendedprivatekey.go lines 38-48:
same layout with the scalar as the key part; no Go error path. -/
def ExtendedPrivateKeyFromBytes (data : List Nat) : ParseOutcome ExtendedPrivateKey :=
  if data.length = xprivLen ∧ 0 < fromBE (data.drop 45) ∧ fromBE (data.drop 45) < groupOrder then
    .ok { version := fromBE (data.take 4)
          depth := fromBE ((data.drop 4).take 1)
          parentFingerprint := fromBE ((data.drop 5).take 4)
          childNumber := fromBE ((data.drop 9).take 4)
          chainCode := fromBE ((data.drop 13).take 32)
          sk := fromBE (data.drop 45) }
  else .nativeAbort

/-- Validity of an extended public key: every field within its wire width
and the point a group element (§3 invariants). -/
def ExtendedPublicKey.Valid (key : ExtendedPublicKey) : Prop :=
  key.version < 256 ^ 4 ∧ key.depth < 256 ∧ key.parentFingerprint < 256 ^ 4 ∧
    key.childNumber < 256 ^ 4 ∧ key.chainCode < 256 ^ 32 ∧ key.pk < groupOrder

/-- Validity of an extended private key: fields within width, scalar
non-zero and in the field (§3). -/
def ExtendedPrivateKey.Valid (key : ExtendedPrivateKey) : Prop :=
  key.version < 256 ^ 4 ∧ key.depth < 256 ∧ key.parentFingerprint < 256 ^ 4 ∧
    key.childNumber < 256 ^ 4 ∧ key.chainCode < 256 ^ 32 ∧
    0 < key.sk ∧ key.sk < groupOrder

instance (key : ExtendedPublicKey) : Decidable key.Valid := by
  unfold ExtendedPublicKey.Valid; infer_instance

instance (key : ExtendedPrivateKey) : Decidable key.Valid := by
  unfold ExtendedPrivateKey.Valid; infer_instance

theorem beBytes_length (n v : Nat) : (beBytes n v).length = n := by
  induction n generalizing v with
  | zero => rfl
  | succ n ih => simp [beBytes, ih]

theorem fromBE_append_singleton (l : List Nat) (b : Nat) :
    fromBE (l ++ [b]) = fromBE l * 256 + b := by
  simp [fromBE, List.foldl_append]

theorem fromBE_beBytes (n v : Nat) (h : v < 256 ^ n) :
    fromBE (beBytes n v) = v := by
  induction n generalizing v with
  | zero =>
    have : v = 0 := by omega
    simp [this, beBytes, fromBE]
  | succ n ih =>
    have hlt : v / 256 < 256 ^ n := by
      rw [Nat.div_lt_iff_lt_mul (by norm_num)]
      calc v < 256 ^ (n + 1) := h
        _ = 256 ^ n * 256 := by ring
    rw [beBytes, fromBE_append_singleton, ih _ hlt]
    omega

theorem beBytes_split (m n v : Nat) :
    beBytes (m + n) v = beBytes m (v / 256 ^ n) ++ beBytes n (v % 256 ^ n) := by
  induction n generalizing v with
  | zero => simp [beBytes]
  | succ n ih =>
    have h256 : (256 : Nat) ^ (n + 1) = 256 * 256 ^ n := by ring
    have hdiv : v / 256 / 256 ^ n = v / 256 ^ (n + 1) := by
      rw [Nat.div_div_eq_div_mul]; ring_nf
    have hmod1 : v % 256 ^ (n + 1) / 256 = v / 256 % 256 ^ n := by
      rw [h256]; exact Nat.mod_mul_right_div_self v 256 (256 ^ n)
    have hmod2 : v % 256 ^ (n + 1) % 256 = v % 256 := by
      refine Nat.mod_mod_of_dvd v ?_
      exact ⟨256 ^ n, h256⟩
    have : m + (n + 1) = (m + n) + 1 := by omega
    rw [this, beBytes, ih, beBytes, hdiv, hmod1, hmod2, List.append_assoc]

theorem take_of_append_left {l r : List Nat} {n : Nat} (h : l.length = n) :
    (l ++ r).take n = l := by
  subst h; exact List.take_left l r

theorem drop_of_append_left {l r : List Nat} {n : Nat} (h : l.length = n) :
    (l ++ r).drop n = r := by
  subst h; exact List.drop_left l r

/-- Taking the first `m` bytes of an `(m+n)`-byte big-endian encoding yields
the `m`-byte encoding of the high part of the value. -/
theorem take_beBytes (m n v : Nat) :
    (beBytes (m + n) v).take m = beBytes m (v / 256 ^ n) := by
  rw [beBytes_split]
  exact take_of_append_left (beBytes_length m _)

attribute [irreducible] beBytes

theorem sumG_eq_sum_mod (l : List Nat) : sumG l = l.sum % groupOrder := by
  induction l with
  | nil => rfl
  | cons a l ih =>
    show addG a (sumG l) = (a + l.sum) % groupOrder
    rw [ih]
    exact Nat.ModEq.add_left a (Nat.mod_modEq l.sum groupOrder)

theorem sortedPoints_eq_of_perm {keys₁ keys₂ : List PublicKey}
    (h : keys₁.Perm keys₂) : sortedPoints keys₁ = sortedPoints keys₂ := by
  have hp : (sortedPoints keys₁).Perm (sortedPoints keys₂) :=
    List.Perm.trans (List.perm_insertionSort _ _)
      (List.Perm.trans (h.map _) (List.perm_insertionSort _ _).symm)
  have hs1 : List.Sorted (· ≤ ·) (sortedPoints keys₁) := List.sorted_insertionSort _ _
  have hs2 : List.Sorted (· ≤ ·) (sortedPoints keys₂) := List.sorted_insertionSort _ _
  exact List.eq_of_perm_of_sorted hp hs1 hs2

/-- C1 counterexample: at the concrete parent
(version 0, depth 5, no parent fingerprint, child number 0, chain code 9,
point 11) and the hardened index 2^31, PublicChild panics ("cannot derive
hardened children from public key") — the Go function has no error return
value, so the failure reaches the caller only as a crash, not as a rejected
operation reported through an error value. -/
theorem publicChild_hardened_is_panic_counterexample :
    (⟨0, 5, 0, 0, 9, 11⟩ : ExtendedPublicKey).PublicChild (2 ^ 31) =
      .panicked hardenedPanicMsg := by
  decide

/-- C1 (amended): for every ExtendedPublicKey parent and every index
i >= 2^31, PublicChild fails with the hardened-child-from-public-key panic,
before any other check and regardless of the parent's depth or other
fields — but the failure is a Go panic (fatal abort), not an error value
returned to the caller. -/
theorem publicChild_hardened_always_panics (parent : ExtendedPublicKey) (i : Nat)
    (h : childComparator ≤ i) :
    parent.PublicChild i = .panicked hardenedPanicMsg := by
  simp [ExtendedPublicKey.PublicChild, h]

theorem publicChild_hardened_always_panics_witness :
    childComparator ≤ 2 ^ 31 + 5 ∧
      (⟨0, 254, 0, 0, 9, 11⟩ : ExtendedPublicKey).PublicChild (2 ^ 31 + 5) =
        .panicked hardenedPanicMsg :=
  ⟨by decide, publicChild_hardened_always_panics ⟨0, 254, 0, 0, 9, 11⟩ (2 ^ 31 + 5) (by decide)⟩

/-- C2 counterexample: at the concrete depth-255 parent and index 2^31,
PublicChild fails with the hardened-child panic, not the depth failure —
contradicting the claim that a depth-255 parent always makes the derivation
call fail with DepthExceeded. -/
theorem depth255_publicChild_hardened_counterexample :
    (⟨0, 255, 0, 0, 9, 11⟩ : ExtendedPublicKey).PublicChild (2 ^ 31) =
        .panicked hardenedPanicMsg ∧
      hardenedPanicMsg ≠ depthPanicMsg := by
  constructor
  · decide
  · decide

/-- C2 (amended): deriving from a depth-255 node fails with the depth-limit
panic — always for PrivateChild, and for PublicChild whenever i < 2^31 (for
i >= 2^31 the hardened-child panic takes precedence); every successfully
derived child has depth equal to the parent's depth plus one. -/
theorem child_depth_and_depth255 :
    (∀ (xpriv : ExtendedPrivateKey) (i : Nat), xpriv.GetDepth = 255 →
        xpriv.PrivateChild i = .panicked depthPanicMsg) ∧
      (∀ (xpub : ExtendedPublicKey) (i : Nat), xpub.GetDepth = 255 →
        i < childComparator → xpub.PublicChild i = .panicked depthPanicMsg) ∧
      (∀ (xpriv : ExtendedPrivateKey) (i : Nat) (c : ExtendedPrivateKey),
        xpriv.PrivateChild i = .ok c → c.GetDepth = xpriv.GetDepth + 1) ∧
      (∀ (xpub : ExtendedPublicKey) (i : Nat) (c : ExtendedPublicKey),
        xpub.PublicChild i = .ok c → c.GetDepth = xpub.GetDepth + 1) := by
  refine ⟨?_, ?_, ?_, ?_⟩
  · intro xpriv i h
    have h' : xpriv.depth = 255 := h
    simp [ExtendedPrivateKey.PrivateChild, h']
  · intro xpub i h hi
    have h' : xpub.depth = 255 := h
    have hni : ¬ childComparator ≤ i := by omega
    simp [ExtendedPublicKey.PublicChild, hni, h']
  · intro xpriv i c h
    unfold ExtendedPrivateKey.PrivateChild at h
    split at h
    · cases h
    · cases h
      unfold cPrivateChild
      split <;> rfl
  · intro xpub i c h
    unfold ExtendedPublicKey.PublicChild at h
    split at h
    · cases h
    · split at h
      · cases h
      · cases h
        rfl

theorem child_depth_and_depth255_witness :
    (⟨0, 255, 0, 0, 9, 5⟩ : ExtendedPrivateKey).GetDepth = 255 ∧
      (⟨0, 255, 0, 0, 9, 5⟩ : ExtendedPrivateKey).PrivateChild 7 =
        .panicked depthPanicMsg :=
  ⟨by decide, child_depth_and_depth255.1 ⟨0, 255, 0, 0, 9, 5⟩ 7 (by decide)⟩

/-- C3: both aggregation operations reject the empty list with the
EmptyInput error and succeed on every non-empty list of valid keys. -/
theorem aggregate_empty_and_nonempty :
    PublicKeyAggregate [] = .error .EmptyInput ∧
      PublicKeyAggregateInsecure [] = .error .EmptyInput ∧
      ∀ keys : List PublicKey, keys ≠ [] → (∀ k ∈ keys, k.Valid) →
        (∃ r, PublicKeyAggregate keys = .ok r) ∧
          ∃ r, PublicKeyAggregateInsecure keys = .ok r := by
  refine ⟨rfl, rfl, ?_⟩
  intro keys hne _
  have h : keys.isEmpty = false := by
    cases keys with
    | nil => exact absurd rfl hne
    | cons a l => rfl
  exact ⟨⟨cAggregateSecure keys, by simp [PublicKeyAggregate, h]⟩,
    ⟨cAggregateInsecure keys, by simp [PublicKeyAggregateInsecure, h]⟩⟩

theorem aggregate_empty_and_nonempty_witness :
    ([(⟨3⟩ : PublicKey)] ≠ [] ∧ ∀ k ∈ [(⟨3⟩ : PublicKey)], k.Valid) ∧
      (∃ r, PublicKeyAggregate [(⟨3⟩ : PublicKey)] = .ok r) ∧
        ∃ r, PublicKeyAggregateInsecure [(⟨3⟩ : PublicKey)] = .ok r :=
  ⟨⟨by decide, by decide⟩,
    aggregate_empty_and_nonempty.2.2 [⟨3⟩] (by decide) (by decide)⟩

/-- C9: equality on extended keys (public and private) depends only on the
embedded key and chain-code material — two extended keys with equal key and
chain code but arbitrary differing depth, version, parent fingerprint and
child number are Equal. -/
theorem extended_equal_only_key_material
    (a b : ExtendedPublicKey) (a' b' : ExtendedPrivateKey)
    (hpk : a.pk = b.pk) (hcc : a.chainCode = b.chainCode)
    (hsk : a'.sk = b'.sk) (hcc' : a'.chainCode = b'.chainCode) :
    a.Equal b = true ∧ a'.Equal b' = true := by
  constructor
  · simp [ExtendedPublicKey.Equal, hpk, hcc]
  · simp [ExtendedPrivateKey.Equal, hsk, hcc']

theorem extended_equal_only_key_material_witness :
    (⟨0, 3, 17, 23, 9, 11⟩ : ExtendedPublicKey).Equal ⟨1, 4, 18, 24, 9, 11⟩ = true ∧
      (⟨0, 3, 17, 23, 9, 5⟩ : ExtendedPrivateKey).Equal ⟨1, 4, 18, 24, 9, 5⟩ = true :=
  extended_equal_only_key_material ⟨0, 3, 17, 23, 9, 11⟩ ⟨1, 4, 18, 24, 9, 11⟩
    ⟨0, 3, 17, 23, 9, 5⟩ ⟨1, 4, 18, 24, 9, 5⟩ rfl rfl rfl rfl

/-- C10: in PublicChild the hardened-index check precedes the depth check —
for every parent of depth at least 255 and every index i >= 2^31 the failure
is the hardened-child panic, not the depth-limit panic. -/
theorem publicChild_hardened_check_first (xpub : ExtendedPublicKey) (i : Nat)
    (hd : 255 ≤ xpub.GetDepth) (hi : childComparator ≤ i) :
    xpub.PublicChild i = .panicked hardenedPanicMsg ∧
      xpub.PublicChild i ≠ .panicked depthPanicMsg := by
  have h : xpub.PublicChild i = .panicked hardenedPanicMsg := by
    simp [ExtendedPublicKey.PublicChild, hi]
  refine ⟨h, ?_⟩
  rw [h]
  intro hcon
  have hmsg : hardenedPanicMsg = depthPanicMsg := by injection hcon
  exact absurd hmsg (by decide)

theorem publicChild_hardened_check_first_witness :
    (255 ≤ (⟨0, 255, 0, 0, 9, 11⟩ : ExtendedPublicKey).GetDepth ∧
        childComparator ≤ 2 ^ 31 + 1) ∧
      (⟨0, 255, 0, 0, 9, 11⟩ : ExtendedPublicKey).PublicChild (2 ^ 31 + 1) =
          .panicked hardenedPanicMsg ∧
        (⟨0, 255, 0, 0, 9, 11⟩ : ExtendedPublicKey).PublicChild (2 ^ 31 + 1) ≠
          .panicked depthPanicMsg :=
  ⟨⟨by decide, by decide⟩,
    publicChild_hardened_check_first ⟨0, 255, 0, 0, 9, 11⟩ (2 ^ 31 + 1)
      (by decide) (by decide)⟩

/-- C6: both aggregation operations are order-independent — on a non-empty
key list and any permutation of it, secure and insecure aggregation return
the same result. -/
theorem aggregate_perm_invariant (keys₁ keys₂ : List PublicKey)
    (hne : keys₁ ≠ []) (h : keys₁.Perm keys₂) :
    PublicKeyAggregate keys₁ = PublicKeyAggregate keys₂ ∧
      PublicKeyAggregateInsecure keys₁ = PublicKeyAggregateInsecure keys₂ := by
  have hlen : keys₁.length = keys₂.length := h.length_eq
  have hemp : keys₁.isEmpty = keys₂.isEmpty := by
    cases keys₁ <;> cases keys₂ <;> simp_all
  have hsort : sortedPoints keys₁ = sortedPoints keys₂ := sortedPoints_eq_of_perm h
  have hw : (fun k => secureWeight keys₁ k * k.point % groupOrder) =
      fun k => secureWeight keys₂ k * k.point % groupOrder := by
    funext k
    simp [secureWeight, hsort]
  have hmap : (keys₁.map fun k => secureWeight keys₁ k * k.point % groupOrder).Perm
      (keys₂.map fun k => secureWeight keys₂ k * k.point % groupOrder) := by
    rw [hw]
    exact h.map _
  have hsec : cAggregateSecure keys₁ = cAggregateSecure keys₂ := by
    unfold cAggregateSecure
    rw [sumG_eq_sum_mod, sumG_eq_sum_mod, hmap.sum_eq]
  have hins : cAggregateInsecure keys₁ = cAggregateInsecure keys₂ := by
    unfold cAggregateInsecure
    rw [sumG_eq_sum_mod, sumG_eq_sum_mod, (h.map PublicKey.point).sum_eq]
  constructor
  · unfold PublicKeyAggregate
    rw [hemp, hsec]
  · unfold PublicKeyAggregateInsecure
    rw [hemp, hins]

theorem aggregate_perm_invariant_witness :
    ([(⟨1⟩ : PublicKey), ⟨2⟩] ≠ [] ∧ [(⟨1⟩ : PublicKey), ⟨2⟩].Perm [⟨2⟩, ⟨1⟩]) ∧
      PublicKeyAggregate [(⟨1⟩ : PublicKey), ⟨2⟩] = PublicKeyAggregate [⟨2⟩, ⟨1⟩] ∧
        PublicKeyAggregateInsecure [(⟨1⟩ : PublicKey), ⟨2⟩] =
          PublicKeyAggregateInsecure [⟨2⟩, ⟨1⟩] :=
  ⟨⟨by decide, List.Perm.swap (⟨2⟩ : PublicKey) ⟨1⟩ []⟩,
    aggregate_perm_invariant [(⟨1⟩ : PublicKey), ⟨2⟩] [⟨2⟩, ⟨1⟩] (by decide)
      (List.Perm.swap (⟨2⟩ : PublicKey) ⟨1⟩ [])⟩

/-- C8: the fingerprint of a valid public key is the first 4 bytes of its
serialization read as a big-endian u32, and keys equal under Equal have
equal fingerprints. -/
theorem fingerprint_first4_of_serialize (pk : PublicKey) (hv : pk.Valid) :
    pk.Fingerprint = fromBE (pk.Serialize.take 4) ∧
      ∀ pk₂ : PublicKey, pk.Equal pk₂ = true → pk.Fingerprint = pk₂.Fingerprint := by
  constructor
  · have hv' : pk.point < groupOrder := hv
    have hlt : groupOrder < 256 ^ 48 := by decide
    have h48 : pk.point < 256 ^ 48 := lt_trans hv' hlt
    have hser : pk.Serialize.take 4 = beBytes 4 (pk.point / 256 ^ 44) := by
      have hrw : pk.Serialize = beBytes (4 + 44) pk.point := rfl
      rw [hrw, take_beBytes]
    rw [hser, fromBE_beBytes]
    · rfl
    · rw [Nat.div_lt_iff_lt_mul (by positivity)]
      calc pk.point < 256 ^ 48 := h48
        _ = 256 ^ 4 * 256 ^ 44 := by rw [← pow_add]
  · intro pk₂ he
    simp [PublicKey.Equal] at he
    simp [PublicKey.Fingerprint, he]

theorem fingerprint_first4_of_serialize_witness :
    (⟨3⟩ : PublicKey).Valid ∧
      (⟨3⟩ : PublicKey).Fingerprint = fromBE ((⟨3⟩ : PublicKey).Serialize.take 4) :=
  ⟨by decide, (fingerprint_first4_of_serialize ⟨3⟩ (by decide)).1⟩

theorem pkOf_add_tweak (s t : Nat) :
    pkOf ((s + t) % groupOrder) = (pkOf s + genPoint * t) % groupOrder := by
  unfold pkOf
  have h1 : genPoint * ((s + t) % groupOrder) % groupOrder =
      genPoint * (s + t) % groupOrder :=
    (Nat.mod_modEq (s + t) groupOrder).mul_left genPoint
  have h2 : genPoint * (s + t) = genPoint * s + genPoint * t := by ring
  have h3 : (genPoint * s + genPoint * t) % groupOrder =
      (genPoint * s % groupOrder + genPoint * t) % groupOrder :=
    ((Nat.mod_modEq (genPoint * s) groupOrder).symm).add_right _
  rw [h1, h2, h3]

/-- C4: for every ExtendedPrivateKey below the depth ceiling and every
normal index i < 2^31, deriving a private child and projecting it to an
extended public key agrees (under the extended-key Equal semantics) with
public derivation from the projected parent. -/
theorem privateChild_projection_commutes (xpriv : ExtendedPrivateKey) (i : Nat)
    (hd : xpriv.GetDepth < 255) (hi : i < childComparator) :
    ∃ (cpriv : ExtendedPrivateKey) (cpub : ExtendedPublicKey),
      xpriv.PrivateChild i = .ok cpriv ∧
        xpriv.GetExtendedPublicKey.PublicChild i = .ok cpub ∧
        cpriv.GetExtendedPublicKey.Equal cpub = true := by
  have hd' : ¬ xpriv.depth ≥ 255 := by
    have hlt : xpriv.depth < 255 := hd
    omega
  have hni : ¬ i ≥ childComparator := by omega
  refine ⟨cPrivateChild xpriv i, cPublicChild xpriv.GetExtendedPublicKey i, ?_, ?_, ?_⟩
  · simp [ExtendedPrivateKey.PrivateChild, hd']
  · simp [ExtendedPublicKey.PublicChild, hni, ExtendedPrivateKey.GetExtendedPublicKey, hd']
  · unfold cPrivateChild
    rw [if_pos hi]
    simp [ExtendedPrivateKey.GetExtendedPublicKey, cPublicChild, ExtendedPublicKey.Equal,
      pkOf_add_tweak]

theorem privateChild_projection_commutes_witness :
    ((⟨0, 0, 0, 0, 9, 5⟩ : ExtendedPrivateKey).GetDepth < 255 ∧ (0 : Nat) < childComparator) ∧
      ∃ (cpriv : ExtendedPrivateKey) (cpub : ExtendedPublicKey),
        (⟨0, 0, 0, 0, 9, 5⟩ : ExtendedPrivateKey).PrivateChild 0 = .ok cpriv ∧
          (⟨0, 0, 0, 0, 9, 5⟩ : ExtendedPrivateKey).GetExtendedPublicKey.PublicChild 0 =
              .ok cpub ∧
            cpriv.GetExtendedPublicKey.Equal cpub = true :=
  ⟨⟨by decide, by decide⟩,
    privateChild_projection_commutes ⟨0, 0, 0, 0, 9, 5⟩ 0 (by decide) (by decide)⟩

theorem serializedLayout_fields (v d pf cn cc k n : Nat) (data : List Nat)
    (hdata : data = beBytes 4 v ++ (beBytes 1 d ++ (beBytes 4 pf ++ (beBytes 4 cn ++
      (beBytes 32 cc ++ beBytes n k))))) :
    data.take 4 = beBytes 4 v ∧
      (data.drop 4).take 1 = beBytes 1 d ∧
      (data.drop 5).take 4 = beBytes 4 pf ∧
      (data.drop 9).take 4 = beBytes 4 cn ∧
      (data.drop 13).take 32 = beBytes 32 cc ∧
      data.drop 45 = beBytes n k ∧
      data.length = 45 + n := by
  have d4 : data.drop 4 =
      beBytes 1 d ++ (beBytes 4 pf ++ (beBytes 4 cn ++ (beBytes 32 cc ++ beBytes n k))) := by
    rw [hdata]
    exact drop_of_append_left (beBytes_length 4 v)
  have d5 : data.drop 5 =
      beBytes 4 pf ++ (beBytes 4 cn ++ (beBytes 32 cc ++ beBytes n k)) := by
    have hstep : (data.drop 4).drop 1 = data.drop 5 := by
      rw [List.drop_drop]
    rw [← hstep, d4]
    exact drop_of_append_left (beBytes_length 1 d)
  have d9 : data.drop 9 = beBytes 4 cn ++ (beBytes 32 cc ++ beBytes n k) := by
    have hstep : (data.drop 5).drop 4 = data.drop 9 := by
      rw [List.drop_drop]
    rw [← hstep, d5]
    exact drop_of_append_left (beBytes_length 4 pf)
  have d13 : data.drop 13 = beBytes 32 cc ++ beBytes n k := by
    have hstep : (data.drop 9).drop 4 = data.drop 13 := by
      rw [List.drop_drop]
    rw [← hstep, d9]
    exact drop_of_append_left (beBytes_length 4 cn)
  have d45 : data.drop 45 = beBytes n k := by
    have hstep : (data.drop 13).drop 32 = data.drop 45 := by
      rw [List.drop_drop]
    rw [← hstep, d13]
    exact drop_of_append_left (beBytes_length 32 cc)
  refine ⟨?_, ?_, ?_, ?_, ?_, d45, ?_⟩
  · rw [hdata]
    exact take_of_append_left (beBytes_length 4 v)
  · rw [d4]
    exact take_of_append_left (beBytes_length 1 d)
  · rw [d5]
    exact take_of_append_left (beBytes_length 4 pf)
  · rw [d9]
    exact take_of_append_left (beBytes_length 4 cn)
  · rw [d13]
    exact take_of_append_left (beBytes_length 32 cc)
  · rw [hdata]
    simp [beBytes_length]
    omega

theorem xpub_parse_serialize (key : ExtendedPublicKey) (hv : key.Valid) :
    ExtendedPublicKeyFromBytes key.Serialize = .ok key := by
  obtain ⟨h1, h2, h3, h4, h5, h6⟩ := hv
  obtain ⟨t1, t2, t3, t4, t5, t6, t7⟩ :=
    serializedLayout_fields key.version key.depth key.parentFingerprint key.childNumber
      key.chainCode key.pk pkLen key.Serialize rfl
  have hpk : fromBE (key.Serialize.drop 45) = key.pk := by
    rw [t6]
    exact fromBE_beBytes _ _ (lt_trans h6 (by decide))
  have hver : fromBE (key.Serialize.take 4) = key.version := by
    rw [t1]
    exact fromBE_beBytes _ _ h1
  have hdep : fromBE ((key.Serialize.drop 4).take 1) = key.depth := by
    rw [t2]
    exact fromBE_beBytes _ _ (by simpa using h2)
  have hpf : fromBE ((key.Serialize.drop 5).take 4) = key.parentFingerprint := by
    rw [t3]
    exact fromBE_beBytes _ _ h3
  have hcn : fromBE ((key.Serialize.drop 9).take 4) = key.childNumber := by
    rw [t4]
    exact fromBE_beBytes _ _ h4
  have hcc : fromBE ((key.Serialize.drop 13).take 32) = key.chainCode := by
    rw [t5]
    exact fromBE_beBytes _ _ h5
  have hlen : key.Serialize.length = xpubLen := by
    rw [t7]
    decide
  unfold ExtendedPublicKeyFromBytes
  rw [if_pos ⟨hlen, by rw [hpk]; exact h6⟩, hver, hdep, hpf, hcn, hcc, hpk]

theorem xpriv_parse_serialize (key : ExtendedPrivateKey) (hv : key.Valid) :
    ExtendedPrivateKeyFromBytes key.Serialize = .ok key := by
  obtain ⟨h1, h2, h3, h4, h5, h6, h7⟩ := hv
  obtain ⟨t1, t2, t3, t4, t5, t6, t7⟩ :=
    serializedLayout_fields key.version key.depth key.parentFingerprint key.childNumber
      key.chainCode key.sk skLen key.Serialize rfl
  have hsk : fromBE (key.Serialize.drop 45) = key.sk := by
    rw [t6]
    exact fromBE_beBytes _ _ (lt_trans h7 (by decide))
  have hver : fromBE (key.Serialize.take 4) = key.version := by
    rw [t1]
    exact fromBE_beBytes _ _ h1
  have hdep : fromBE ((key.Serialize.drop 4).take 1) = key.depth := by
    rw [t2]
    exact fromBE_beBytes _ _ (by simpa using h2)
  have hpf : fromBE ((key.Serialize.drop 5).take 4) = key.parentFingerprint := by
    rw [t3]
    exact fromBE_beBytes _ _ h3
  have hcn : fromBE ((key.Serialize.drop 9).take 4) = key.childNumber := by
    rw [t4]
    exact fromBE_beBytes _ _ h4
  have hcc : fromBE ((key.Serialize.drop 13).take 32) = key.chainCode := by
    rw [t5]
    exact fromBE_beBytes _ _ h5
  have hlen : key.Serialize.length = xprivLen := by
    rw [t7]
    decide
  unfold ExtendedPrivateKeyFromBytes
  rw [if_pos ⟨hlen, by rw [hsk]; exact h6, by rw [hsk]; exact h7⟩,
    hver, hdep, hpf, hcn, hcc, hsk]

/-- C5: serialize/deserialize round-trip for all four key types — for every
valid key, deserializing its serialization succeeds and yields a key equal
to the original under that type's Equal semantics. -/
theorem serialize_roundtrip :
    (∀ pk : PublicKey, pk.Valid →
        ∃ pk2, PublicKeyFromBytes pk.Serialize = .ok pk2 ∧ pk2.Equal pk = true) ∧
      (∀ sk : PrivateKey, sk.Valid →
        ∃ sk2, PrivateKeyFromBytes sk.Serialize = .ok sk2 ∧ sk2.Equal sk = true) ∧
      (∀ key : ExtendedPublicKey, key.Valid →
        ∃ k2, ExtendedPublicKeyFromBytes key.Serialize = .ok k2 ∧ k2.Equal key = true) ∧
      (∀ key : ExtendedPrivateKey, key.Valid →
        ∃ k2, ExtendedPrivateKeyFromBytes key.Serialize = .ok k2 ∧ k2.Equal key = true) := by
  refine ⟨?_, ?_, ?_, ?_⟩
  · intro pk hv
    have hv' : pk.point < groupOrder := hv
    refine ⟨pk, ?_, by simp [PublicKey.Equal]⟩
    have hrt : fromBE (pk.Serialize) = pk.point :=
      fromBE_beBytes _ _ (lt_trans hv' (by decide))
    have hlen : pk.Serialize.length = pkLen := beBytes_length _ _
    unfold PublicKeyFromBytes
    rw [if_pos ⟨hlen, by rw [hrt]; exact hv'⟩, hrt]
  · intro sk hv
    obtain ⟨h0, h1⟩ := hv
    refine ⟨sk, ?_, by simp [PrivateKey.Equal]⟩
    have hrt : fromBE (sk.Serialize) = sk.scalar :=
      fromBE_beBytes _ _ (lt_trans h1 (by decide))
    have hlen : sk.Serialize.length = skLen := beBytes_length _ _
    unfold PrivateKeyFromBytes
    rw [if_pos ⟨hlen, by rw [hrt]; exact h0, by rw [hrt]; exact h1⟩, hrt]
  · intro key hv
    exact ⟨key, xpub_parse_serialize key hv, by simp [ExtendedPublicKey.Equal]⟩
  · intro key hv
    exact ⟨key, xpriv_parse_serialize key hv, by simp [ExtendedPrivateKey.Equal]⟩

theorem serialize_roundtrip_witness :
    ((⟨3⟩ : PublicKey).Valid ∧ (⟨2⟩ : PrivateKey).Valid ∧
        (⟨1, 2, 3, 4, 9, 11⟩ : ExtendedPublicKey).Valid ∧
        (⟨1, 2, 3, 4, 9, 5⟩ : ExtendedPrivateKey).Valid) ∧
      (∃ pk2, PublicKeyFromBytes (⟨3⟩ : PublicKey).Serialize = .ok pk2 ∧
          pk2.Equal ⟨3⟩ = true) ∧
        (∃ sk2, PrivateKeyFromBytes (⟨2⟩ : PrivateKey).Serialize = .ok sk2 ∧
          sk2.Equal ⟨2⟩ = true) ∧
        (∃ k2, ExtendedPublicKeyFromBytes
            (⟨1, 2, 3, 4, 9, 11⟩ : ExtendedPublicKey).Serialize = .ok k2 ∧
          k2.Equal ⟨1, 2, 3, 4, 9, 11⟩ = true) ∧
        ∃ k2, ExtendedPrivateKeyFromBytes
            (⟨1, 2, 3, 4, 9, 5⟩ : ExtendedPrivateKey).Serialize = .ok k2 ∧
          k2.Equal ⟨1, 2, 3, 4, 9, 5⟩ = true :=
  ⟨⟨by decide, by decide, by decide, by decide⟩,
    serialize_roundtrip.1 ⟨3⟩ (by decide),
    serialize_roundtrip.2.1 ⟨2⟩ (by decide),
    serialize_roundtrip.2.2.1 ⟨1, 2, 3, 4, 9, 11⟩ (by decide),
    serialize_roundtrip.2.2.2 ⟨1, 2, 3, 4, 9, 5⟩ (by decide)⟩

/-- C7 counterexample: on the malformed (empty) input, the extended-key
constructors do not return an InvalidEncoding error to the caller — their Go
signatures carry no error value, so the native parse failure surfaces only
as a native-layer abort. -/
theorem extended_fromBytes_no_error_counterexample :
    ExtendedPublicKeyFromBytes [] = .nativeAbort ∧
      ExtendedPrivateKeyFromBytes [] = .nativeAbort := by
  constructor
  · decide
  · decide

/-- C7 (amended): PublicKeyFromBytes either fully succeeds with a valid key
or fails synchronously with an InvalidEncoding error returned to the
caller; ExtendedPublicKeyFromBytes and ExtendedPrivateKeyFromBytes have no
error return path — on malformed input (wrong length, an invalid group
element, or a zero scalar) the failure is a native abort, not an error
returned to the caller. -/
theorem fromBytes_error_behavior :
    (∀ data : List Nat,
        (∃ pk, PublicKeyFromBytes data = .ok pk ∧ pk.Valid) ∨
          PublicKeyFromBytes data = .error .InvalidEncoding) ∧
      (∀ data : List Nat,
        data.length ≠ xpubLen ∨ groupOrder ≤ fromBE (data.drop 45) →
          ExtendedPublicKeyFromBytes data = .nativeAbort) ∧
      (∀ data : List Nat,
        data.length ≠ xprivLen ∨ fromBE (data.drop 45) = 0 ∨
            groupOrder ≤ fromBE (data.drop 45) →
          ExtendedPrivateKeyFromBytes data = .nativeAbort) := by
  refine ⟨?_, ?_, ?_⟩
  · intro data
    unfold PublicKeyFromBytes
    split
    · rename_i hcond
      exact Or.inl ⟨⟨fromBE data⟩, rfl, hcond.2⟩
    · exact Or.inr rfl
  · intro data hbad
    unfold ExtendedPublicKeyFromBytes
    rw [if_neg]
    intro hcond
    rcases hbad with hbad | hbad
    · exact hbad hcond.1
    · omega
  · intro data hbad
    unfold ExtendedPrivateKeyFromBytes
    rw [if_neg]
    intro hcond
    rcases hbad with hbad | hbad | hbad
    · exact hbad hcond.1
    · omega
    · omega

theorem fromBytes_error_behavior_witness :
    ((∃ pk, PublicKeyFromBytes [0] = .ok pk ∧ pk.Valid) ∨
        PublicKeyFromBytes [0] = .error .InvalidEncoding) ∧
      (([0] : List Nat).length ≠ xpubLen ∨
          groupOrder ≤ fromBE (([0] : List Nat).drop 45)) ∧
        ExtendedPublicKeyFromBytes [0] = .nativeAbort ∧
        ExtendedPrivateKeyFromBytes [0] = .nativeAbort :=
  ⟨fromBytes_error_behavior.1 [0],
    Or.inl (by decide),
    fromBytes_error_behavior.2.1 [0] (Or.inl (by decide)),
    fromBytes_error_behavior.2.2 [0] (Or.inl (by decide))⟩

end BLSChia
